import Mathlib

/-!
Verification of the agent-activity authority query
(`crates/holochain_cascade/src/authority/get_agent_activity_query/hashes.rs`).

The query is a single-pass aggregation: a row projector (`as_map`) turns each
stored row into a `Judged Item`, a fold (`fold`) accumulates three ordered
partitions (valid / rejected / pending) and lazily decides a chain status
(fork / invalid), and a render step (`render`) produces the final
`AgentActivityResponse` with a highest-observed watermark.

The embedding below mirrors the source function by function.  Action hashes,
agent keys and timestamps are modelled abstractly as natural numbers; chain
sequence numbers (`u32` in the source, used only for comparisons) are `Nat`.
The `expect` in `compute_chain_status` is modelled by returning `Option`:
`none` marks the panicking branch.
-/

namespace AgentActivity

/-- Content-derived action hash, modelled abstractly. -/
abbrev ActionHash := Nat

/-- Agent identity, modelled abstractly. -/
abbrev AgentPubKey := Nat

/-- Integration timestamp, modelled abstractly; only its presence matters. -/
abbrev Timestamp := Nat

/-- An action paired with its hash.  The query reads only the chain sequence
number (`action_seq()`) and the hash (`get_hash()`), so the model keeps
exactly those two fields. -/
structure ActionHashed where
  action_seq : Nat
  hash : ActionHash
deriving DecidableEq, Repr

/-- Validation status assigned externally per stored operation: `Valid`,
`Rejected`, or absent (carried as `Option ValidationStatus`). -/
inductive ValidationStatus where
  | Valid
  | Rejected
deriving DecidableEq, Repr

/-- The per-row item produced by the row projector: the action tagged with its
integration state. -/
inductive Item where
  | Integrated (action : ActionHashed)
  | Pending (action : ActionHashed)
deriving DecidableEq, Repr

/-- A datum judged with its (nullable) validation status
(`Judged::raw(item, validation_status)` in the source). -/
structure Judged where
  data : Item
  validation_status : Option ValidationStatus
deriving DecidableEq, Repr

/-- Chain head: sequence number and hash of a distinguished record. -/
structure ChainHead where
  action_seq : Nat
  hash : ActionHash
deriving DecidableEq, Repr

/-- Fork evidence: the shared sequence number and the two tied hashes. -/
structure ChainFork where
  fork_seq : Nat
  first_action : ActionHash
  second_action : ActionHash
deriving DecidableEq, Repr

/-- Overall chain status of the agent's chain. -/
inductive ChainStatus where
  | Empty
  | Valid (head : ChainHead)
  | Invalid (head : ChainHead)
  | Forked (fork : ChainFork)
deriving DecidableEq, Repr

/-- Highest observed watermark: a sequence number and the hashes tied at it. -/
structure HighestObserved where
  action_seq : Nat
  hash : List ActionHash
deriving DecidableEq, Repr

/-- The fold accumulator state: three ordered partitions plus the lazily
decided status (`State` in the source, with `Default` all-empty). -/
structure State where
  valid : List ActionHashed := []
  rejected : List ActionHashed := []
  pending : List ActionHashed := []
  status : Option ChainStatus := none
deriving DecidableEq, Repr

/-- Response options (`GetActivityOptions`): the two independent gates read by
`render`. -/
structure GetActivityOptions where
  include_valid_activity : Bool
  include_rejected_activity : Bool
deriving DecidableEq, Repr

/-- Modelled from the spec: `ChainQueryFilter` and its `filter_actions` are
defined outside this repository.  Per the spec the activity filter is a
caller-supplied predicate restricting which action records are included in the
rendered activity lists, applied to a partition while preserving partition
order; we model it as a boolean predicate. -/
structure ChainQueryFilter where
  pred : ActionHashed → Bool

/-- Modelled from the spec: applying the activity filter to a partition keeps
the records satisfying the predicate, preserving partition order. -/
def ChainQueryFilter.filter_actions (f : ChainQueryFilter) (actions : List ActionHashed) :
    List ActionHashed :=
  actions.filter f.pred

/-- The query specification: agent identity, activity filter, response
options. -/
structure GetAgentActivityQuery where
  agent : AgentPubKey
  filter : ChainQueryFilter
  options : GetActivityOptions

/-- An activity list in the response: either the filtered (seq, hash) pairs or
the explicit not-requested marker. -/
inductive ChainItems where
  | Hashes (hashes : List (Nat × ActionHash))
  | NotRequested
deriving DecidableEq, Repr

/-- The rendered output of the query. -/
structure AgentActivityResponse where
  agent : AgentPubKey
  valid_activity : ChainItems
  rejected_activity : ChainItems
  status : ChainStatus
  highest_observed : Option HighestObserved
deriving DecidableEq, Repr

/-- Errors a query can fail with.  The only failure the projected model can
produce is a decode failure of a stored action payload. -/
inductive QueryError where
  | DecodeError
deriving DecidableEq, Repr

/-- The decoded action payload; the query reads only its sequence number. -/
structure Action where
  action_seq : Nat
deriving DecidableEq, Repr

/-- A signed action as decoded from a blob; `into_data` drops the signature. -/
structure SignedAction where
  action : Action
deriving DecidableEq, Repr

/-- Discards the signature (`SignedAction::into_data`). -/
def SignedAction.into_data (s : SignedAction) : Action := s.action

/-- Modelled from the spec: a stored serialized action payload, which either
deserializes into a well-formed action or is corrupt.  We model the blob by
its decode outcome. -/
inductive Blob where
  | wellFormed (a : SignedAction)
  | corrupt
deriving DecidableEq, Repr

/-- Modelled from the spec: `from_blob` (defined outside this repository)
deserializes a stored payload and fails with a `DecodeError` when the payload
cannot be deserialized into a well-formed action. -/
def from_blob : Blob → Except QueryError SignedAction
  | .wellFormed a => .ok a
  | .corrupt => .error .DecodeError

/-- Pairs pre-decoded action data with an already-known hash
(`ActionHashed::with_pre_hashed`). -/
def ActionHashed.with_pre_hashed (action : Action) (hash : ActionHash) : ActionHashed :=
  { action_seq := action.action_seq, hash := hash }

/-- One raw stored row, with exactly the columns the query selects:
`Action.hash`, `DhtOp.validation_status` (nullable), `Action.blob`,
`DhtOp.when_integrated` (nullable). -/
structure Row where
  hash : ActionHash
  validation_status : Option ValidationStatus
  action_blob : Blob
  when_integrated : Option Timestamp
deriving DecidableEq, Repr

/-- Row projector (`GetAgentActivityQuery::as_map`): reads the nullable
validation status and the hash, decodes the action blob (propagating a decode
failure), tags the action `Integrated` when the integration timestamp is
present and `Pending` otherwise, and judges it with the validation status. -/
def as_map (row : Row) : Except QueryError Judged :=
  let validation_status := row.validation_status
  let hash := row.hash
  (from_blob row.action_blob).bind fun action =>
    let integrated := row.when_integrated
    let action := ActionHashed.with_pre_hashed action.into_data hash
    let item := if integrated.isSome then Item.Integrated action else Item.Pending action
    .ok { data := item, validation_status := validation_status }

/-- Initial fold state (`init_fold`): the all-empty default. -/
def init_fold : State := {}

/-- The fold step (`GetAgentActivityQuery::fold`), one `Judged` item at a
time, in scan (ascending sequence) order:
valid+integrated items may decide `Forked` against the last valid entry and
are then appended to the valid partition; rejected+integrated items may decide
`Invalid` and are appended to the rejected partition; pending items are
appended to the pending partition; anything else is ignored. -/
def fold (state : State) (item : Judged) : State :=
  match item.validation_status, item.data with
  | some .Valid, .Integrated action =>
      let seq := action.action_seq
      let state1 :=
        if state.status.isNone then
          match state.valid.getLast? with
          | some v =>
              if seq = v.action_seq then
                { state with status := some (.Forked
                    { fork_seq := seq
                      first_action := action.hash
                      second_action := v.hash }) }
              else state
          | none => state
        else state
      { state1 with valid := state1.valid ++ [action] }
  | some .Rejected, .Integrated action =>
      let state1 :=
        if state.status.isNone then
          { state with status := some (.Invalid
              { action_seq := action.action_seq, hash := action.hash }) }
        else state
      { state1 with rejected := state1.rejected ++ [action] }
  | _, .Pending data => { state with pending := state.pending ++ [data] }
  | _, _ => state

/-- Render-time status resolution (`compute_chain_status`): an already-frozen
status is used unchanged; otherwise `Empty` when both the valid and rejected
partitions are empty, else `Valid` headed by the last valid entry.  The
source's `expect` on `state.valid.last()` is the `none` branch here. -/
def compute_chain_status (state : State) : Option ChainStatus :=
  match state.status with
  | some s => some s
  | none =>
      if state.valid.isEmpty && state.rejected.isEmpty then
        some .Empty
      else
        match state.valid.getLast? with
        | some last => some (.Valid { action_seq := last.action_seq, hash := last.hash })
        | none => none

/-- One step of the watermark scan (the `check_highest` closure): a strictly
greater sequence replaces the hash set, an equal sequence appends to it, a
lesser sequence is ignored. -/
def check_highest (acc : Option Nat × List ActionHash) (seq : Nat) (hash : ActionHash) :
    Option Nat × List ActionHash :=
  match acc with
  | (none, hashes) => (some seq, hashes ++ [hash])
  | (some last, hashes) =>
      if seq < last then (some last, hashes)
      else if seq = last then (some last, hashes ++ [hash])
      else (some seq, [hash])

/-- Highest-observed watermark (`compute_highest_observed`): runs
`check_highest` on the last element of each partition, visiting valid, then
rejected, then pending. -/
def compute_highest_observed (state : State) : Option HighestObserved :=
  let acc : Option Nat × List ActionHash := (none, [])
  let acc := match state.valid.getLast? with
    | some v => check_highest acc v.action_seq v.hash
    | none => acc
  let acc := match state.rejected.getLast? with
    | some r => check_highest acc r.action_seq r.hash
    | none => acc
  let acc := match state.pending.getLast? with
    | some p => check_highest acc p.action_seq p.hash
    | none => acc
  acc.1.map fun action_seq => { action_seq := action_seq, hash := acc.2 }

/-- Render stage (`GetAgentActivityQuery::render`): computes the watermark and
the chain status, gates the two activity lists on the response options
(filtering and projecting to (seq, hash) pairs when requested, emitting the
explicit `NotRequested` marker otherwise).  `none` marks the panicking branch
inherited from `compute_chain_status`. -/
def render (q : GetAgentActivityQuery) (state : State) : Option AgentActivityResponse :=
  let highest_observed := compute_highest_observed state
  match compute_chain_status state with
  | none => none
  | some status =>
      let valid := state.valid
      let rejected := state.rejected
      let valid_activity :=
        if q.options.include_valid_activity then
          ChainItems.Hashes ((q.filter.filter_actions valid).map fun h => (h.action_seq, h.hash))
        else
          ChainItems.NotRequested
      let rejected_activity :=
        if q.options.include_rejected_activity then
          ChainItems.Hashes ((q.filter.filter_actions rejected).map fun h => (h.action_seq, h.hash))
        else
          ChainItems.NotRequested
      some { agent := q.agent
             valid_activity := valid_activity
             rejected_activity := rejected_activity
             status := status
             highest_observed := highest_observed }

/-- Modelled from the spec: the generic query driver (defined outside this
repository) projects each delivered row with `as_map`, in delivery order,
aborting the whole query on the first projection error. -/
def map_rows : List Row → Except QueryError (List Judged)
  | [] => .ok []
  | r :: rest =>
      match as_map r with
      | .error e => .error e
      | .ok item =>
          match map_rows rest with
          | .error e => .error e
          | .ok items => .ok (item :: items)

/-- Modelled from the spec: the generic query driver (defined outside this
repository) projects the delivered rows, folds the resulting items in
delivery order from the initial state, and renders.  A projection error
aborts the query with no partial response; the inner `Option` is `some`
exactly when render does not panic. -/
def run_query (q : GetAgentActivityQuery) (rows : List Row) :
    Except QueryError (Option AgentActivityResponse) :=
  match map_rows rows with
  | .error e => .error e
  | .ok items => .ok (render q (items.foldl fold init_fold))

/-- The chain sequence number an item carries, for stating the ascending
delivery-order precondition. -/
def Judged.item_seq (j : Judged) : Nat :=
  match j.data with
  | .Integrated a => a.action_seq
  | .Pending a => a.action_seq

/-! ### Specification-side definitions

`highest_observed_spec` restates the spec's description of the watermark: it
examines only the last element of each of the three partitions, in the fixed
order valid, rejected, pending, and — when any is present — carries the
maximum sequence number among those last elements together with the hashes
tied at that maximum.  It is compared against `compute_highest_observed`. -/

/-- The last elements of the three partitions, in the fixed visiting order
valid, rejected, pending. -/
def state_lasts (s : State) : List ActionHashed :=
  s.valid.getLast?.toList ++ s.rejected.getLast?.toList ++ s.pending.getLast?.toList

/-- The maximum sequence number among `a :: rest`. -/
def list_max_seq (a : ActionHashed) (rest : List ActionHashed) : Nat :=
  rest.foldl (fun acc b => max acc b.action_seq) a.action_seq

/-- The maximum sequence number occurring in a list of records, together with
the hashes of the records tied at that maximum (in list order); `(none, [])`
for the empty list. -/
def max_and_ties (records : List ActionHashed) : Option Nat × List ActionHash :=
  match records with
  | [] => (none, [])
  | a :: rest =>
      (some (list_max_seq a rest),
        ((a :: rest).filter fun b => decide (b.action_seq = list_max_seq a rest)).map
          ActionHashed.hash)

/-- The spec's description of the highest-observed watermark. -/
def highest_observed_spec (s : State) : Option HighestObserved :=
  match max_and_ties (state_lasts s) with
  | (none, _) => none
  | (some m, hashes) => some { action_seq := m, hash := hashes }

/-! ### Helper lemmas -/

/-- The running maximum over a list is at least its initial value. -/
theorem foldl_max_ge_init (l : List ActionHashed) :
    ∀ i : Nat, i ≤ l.foldl (fun acc b => max acc b.action_seq) i := by
  induction l with
  | nil => intro i; simp
  | cons b rest ih =>
      intro i
      exact le_trans (le_max_left _ _) (ih (max i b.action_seq))

/-- The running maximum over a list dominates every member's sequence. -/
theorem foldl_max_ge_mem (l : List ActionHashed) :
    ∀ (i : Nat) (x : ActionHashed), x ∈ l →
      x.action_seq ≤ l.foldl (fun acc b => max acc b.action_seq) i := by
  induction l with
  | nil => intro i x hx; cases hx
  | cons b rest ih =>
      intro i x hx
      rcases List.mem_cons.mp hx with h | h
      · subst h
        exact le_trans (le_max_right _ _) (foldl_max_ge_init rest (max i x.action_seq))
      · exact ih (max i b.action_seq) x h

/-- Every member of `a :: rest` has sequence at most `list_max_seq a rest`. -/
theorem le_list_max_seq (a : ActionHashed) (rest : List ActionHashed) (x : ActionHashed)
    (hx : x ∈ a :: rest) : x.action_seq ≤ list_max_seq a rest := by
  rcases List.mem_cons.mp hx with h | h
  · subst h; exact foldl_max_ge_init rest x.action_seq
  · exact foldl_max_ge_mem rest a.action_seq x h

/-- Appending one record takes the maximum with its sequence. -/
theorem list_max_seq_append (a b : ActionHashed) (rest : List ActionHashed) :
    list_max_seq a (rest ++ [b]) = max (list_max_seq a rest) b.action_seq := by
  simp [list_max_seq]

/-- One `check_highest` step applied to the max-and-ties summary of the
records seen so far yields the summary of the extended record list. -/
theorem check_highest_step (seen : List ActionHashed) (b : ActionHashed) :
    check_highest (max_and_ties seen) b.action_seq b.hash = max_and_ties (seen ++ [b]) := by
  cases seen with
  | nil => simp [max_and_ties, check_highest, list_max_seq]
  | cons a rest =>
      have happ : (a :: rest) ++ [b] = a :: (rest ++ [b]) := rfl
      rw [happ]
      simp only [max_and_ties, check_highest, list_max_seq_append]
      rcases Nat.lt_trichotomy b.action_seq (list_max_seq a rest) with hlt | heq | hgt
      · rw [if_pos hlt, max_eq_left (le_of_lt hlt)]
        have hb : (decide (b.action_seq = list_max_seq a rest)) = false := by
          simp; omega
        rw [← List.cons_append, List.filter_append]
        simp [hb]
      · rw [if_neg (by omega), if_pos heq, max_eq_left (le_of_eq heq)]
        rw [← List.cons_append, List.filter_append]
        simp [heq]
      · rw [if_neg (by omega), if_neg (by omega), max_eq_right (le_of_lt hgt)]
        have hnil : (a :: rest).filter (fun c => decide (c.action_seq = b.action_seq)) = [] := by
          rw [List.filter_eq_nil_iff]
          intro c hc
          have hle : c.action_seq ≤ list_max_seq a rest := le_list_max_seq a rest c hc
          simp
          omega
        rw [← List.cons_append, List.filter_append]
        simp [hnil]

/-- Folding `check_highest` over a record list from the summary of the records
seen so far yields the summary of the whole list. -/
theorem foldl_check_highest (l : List ActionHashed) :
    ∀ seen : List ActionHashed,
      l.foldl (fun acc b => check_highest acc b.action_seq b.hash) (max_and_ties seen)
        = max_and_ties (seen ++ l) := by
  induction l with
  | nil => intro seen; simp
  | cons b rest ih =>
      intro seen
      rw [List.foldl_cons, check_highest_step, ih (seen ++ [b])]
      simp

/-- `compute_highest_observed` runs `check_highest` over exactly the last
elements of the three partitions, in the order valid, rejected, pending. -/
theorem compute_highest_observed_eq_foldl (s : State) :
    compute_highest_observed s =
      ((state_lasts s).foldl (fun acc b => check_highest acc b.action_seq b.hash)
          (none, [])).1.map
        fun m =>
          { action_seq := m
            hash := ((state_lasts s).foldl
              (fun acc b => check_highest acc b.action_seq b.hash) (none, [])).2 } := by
  rcases hv : s.valid.getLast? with _ | v <;>
    rcases hr : s.rejected.getLast? with _ | r <;>
      rcases hp : s.pending.getLast? with _ | p <;>
        simp [compute_highest_observed, state_lasts, hv, hr, hp]

/-- The max-and-ties summary has no maximum exactly for the empty list. -/
theorem max_and_ties_fst_none (l : List ActionHashed) :
    (max_and_ties l).1 = none ↔ l = [] := by
  cases l <;> simp [max_and_ties]

/-- The list of partition-last elements is empty exactly when all three
partitions are empty. -/
theorem state_lasts_eq_nil (s : State) :
    state_lasts s = [] ↔ s.valid = [] ∧ s.rejected = [] ∧ s.pending = [] := by
  have htl : ∀ o : Option ActionHashed, o.toList = [] ↔ o = none := by
    intro o; cases o <;> simp
  simp [state_lasts, htl, List.getLast?_eq_none_iff]

/-- C2: `compute_highest_observed` examines only the last element of each of
the three partitions, visiting them in the fixed order valid, rejected,
pending; a strictly greater sequence replaces the running hash set, an equal
sequence appends, a lesser sequence is ignored; the result is `none` exactly
when all three partitions are empty, and otherwise carries the maximum
sequence number among those last elements together with the hashes tied at
it (as stated by `highest_observed_spec`). -/
theorem compute_highest_observed_correct (s : State) :
    compute_highest_observed s = highest_observed_spec s ∧
    (compute_highest_observed s = none ↔ s.valid = [] ∧ s.rejected = [] ∧ s.pending = []) := by
  have hfold := compute_highest_observed_eq_foldl s
  have hmt : (state_lasts s).foldl (fun acc b => check_highest acc b.action_seq b.hash)
      ((none : Option Nat), ([] : List ActionHash)) = max_and_ties (state_lasts s) := by
    have h := foldl_check_highest (state_lasts s) []
    simpa [max_and_ties] using h
  rw [hmt] at hfold
  constructor
  · rw [hfold]
    unfold highest_observed_spec
    rcases h : max_and_ties (state_lasts s) with ⟨m?, hs⟩
    cases m? <;> simp
  · rw [hfold, Option.map_eq_none', max_and_ties_fst_none]
    exact state_lasts_eq_nil s

/-- A decided status is never overwritten by a single fold step. -/
theorem fold_status_frozen (s : State) (i : Judged) (st : ChainStatus)
    (h : s.status = some st) : (fold s i).status = some st := by
  obtain ⟨data, vs⟩ := i
  rcases vs with _ | v
  · cases data <;> simp [fold, h]
  · cases v <;> cases data <;> simp [fold, h]

/-- A decided status is never overwritten by the rest of the stream. -/
theorem foldl_status_frozen (items : List Judged) :
    ∀ (s : State) (st : ChainStatus), s.status = some st →
      (items.foldl fold s).status = some st := by
  induction items with
  | nil => intro s st h; simpa
  | cons i rest ih =>
      intro s st h
      exact ih (fold s i) st (fold_status_frozen s i st h)

/-- The status only moves from undecided to decided, never back. -/
theorem fold_status_none (s : State) (i : Judged)
    (h : (fold s i).status = none) : s.status = none := by
  rcases hst : s.status with _ | st
  · rfl
  · have hfr := fold_status_frozen s i st hst
    rw [hfr] at h
    simp at h

/-- A valid integrated item is appended to the valid partition and leaves the
other partitions unchanged, in every case. -/
theorem fold_valid_item (s : State) (a : ActionHashed) :
    (fold s ⟨.Integrated a, some .Valid⟩).valid = s.valid ++ [a] ∧
    (fold s ⟨.Integrated a, some .Valid⟩).rejected = s.rejected ∧
    (fold s ⟨.Integrated a, some .Valid⟩).pending = s.pending := by
  rcases hst : s.status with _ | st
  · rcases hlast : s.valid.getLast? with _ | v
    · simp [fold, hst, hlast]
    · by_cases hseq : a.action_seq = v.action_seq <;> simp [fold, hst, hlast, hseq]
  · simp [fold, hst]

/-- A rejected integrated item is appended to the rejected partition in every
case, leaves the other partitions unchanged, and decides `Invalid` when the
status was still undecided. -/
theorem fold_rejected_item (s : State) (a : ActionHashed) :
    (fold s ⟨.Integrated a, some .Rejected⟩).rejected = s.rejected ++ [a] ∧
    (fold s ⟨.Integrated a, some .Rejected⟩).valid = s.valid ∧
    (fold s ⟨.Integrated a, some .Rejected⟩).pending = s.pending ∧
    (s.status = none →
      (fold s ⟨.Integrated a, some .Rejected⟩).status =
        some (.Invalid { action_seq := a.action_seq, hash := a.hash })) := by
  rcases hst : s.status with _ | st <;> simp [fold, hst]

/-- A pending item is appended to the pending partition regardless of its
validation status; nothing else changes. -/
theorem fold_pending_item (s : State) (a : ActionHashed) (vs : Option ValidationStatus) :
    fold s ⟨.Pending a, vs⟩ = { s with pending := s.pending ++ [a] } := by
  rcases vs with _ | v
  · simp [fold]
  · cases v <;> simp [fold]

/-- An integrated item with absent validation status is ignored. -/
theorem fold_none_integrated (s : State) (a : ActionHashed) :
    fold s ⟨.Integrated a, none⟩ = s := by
  simp [fold]

/-- Reachability invariant: an undecided status forces an empty rejected
partition. -/
def StateInv (s : State) : Prop := s.status = none → s.rejected = []

/-- The fold step preserves the reachability invariant. -/
theorem fold_preserves_inv (s : State) (i : Judged) (h : StateInv s) :
    StateInv (fold s i) := by
  intro hnone
  have hs0 : s.status = none := fold_status_none s i hnone
  have hrej : s.rejected = [] := h hs0
  obtain ⟨data, vs⟩ := i
  cases data with
  | Integrated a =>
      rcases vs with _ | v
      · rw [fold_none_integrated s a]; exact hrej
      · cases v with
        | Valid => rw [(fold_valid_item s a).2.1]; exact hrej
        | Rejected =>
            exfalso
            have hset := (fold_rejected_item s a).2.2.2 hs0
            rw [hset] at hnone
            simp at hnone
  | Pending a =>
      rw [fold_pending_item s a vs]
      exact hrej

/-- The whole fold preserves the reachability invariant. -/
theorem foldl_preserves_inv (items : List Judged) :
    ∀ s : State, StateInv s → StateInv (items.foldl fold s) := by
  induction items with
  | nil => intro s h; simpa
  | cons i rest ih =>
      intro s h
      exact ih (fold s i) (fold_preserves_inv s i h)

/-! ### Claim theorems -/

/-- C1: when a (Valid, Integrated) item arrives whose sequence number equals
that of the last entry of the valid partition and the chain status is still
undecided, `fold` sets the status to `Forked` with `fork_seq` the shared
sequence number, `first_action` the incoming record's hash and
`second_action` the previously-appended record's hash; the incoming record is
still appended to the valid partition. -/
theorem fold_fork_detection (s : State) (a v : ActionHashed)
    (hstatus : s.status = none) (hlast : s.valid.getLast? = some v)
    (hseq : a.action_seq = v.action_seq) :
    (fold s ⟨.Integrated a, some .Valid⟩).status =
      some (.Forked { fork_seq := a.action_seq
                      first_action := a.hash
                      second_action := v.hash }) ∧
    (fold s ⟨.Integrated a, some .Valid⟩).valid = s.valid ++ [a] := by
  constructor
  · simp [fold, hstatus, hlast, hseq]
  · exact (fold_valid_item s a).1

/-- C1 witness: a second valid record at sequence 2 decides a fork. -/
theorem fold_fork_detection_witness :
    (fold { valid := [{ action_seq := 2, hash := 10 }], rejected := [], pending := [],
            status := none }
        ⟨.Integrated { action_seq := 2, hash := 20 }, some .Valid⟩).status =
      some (.Forked { fork_seq := 2, first_action := 20, second_action := 10 }) ∧
    (fold { valid := [{ action_seq := 2, hash := 10 }], rejected := [], pending := [],
            status := none }
        ⟨.Integrated { action_seq := 2, hash := 20 }, some .Valid⟩).valid =
      [{ action_seq := 2, hash := 10 }, { action_seq := 2, hash := 20 }] := by
  have h := fold_fork_detection
      { valid := [{ action_seq := 2, hash := 10 }], rejected := [], pending := [],
        status := none }
      { action_seq := 2, hash := 20 } { action_seq := 2, hash := 10 } rfl rfl rfl
  exact ⟨h.1, h.2⟩

/-- C3: once the fold has decided a chain status, no later item in the stream
changes it, while later items are still appended to their respective
partitions. -/
theorem freeze_invariant (s : State) (st : ChainStatus) (h : s.status = some st)
    (items : List Judged) :
    (items.foldl fold s).status = some st ∧
    ∀ a : ActionHashed,
      (fold s ⟨.Integrated a, some .Valid⟩).valid = s.valid ++ [a] ∧
      (fold s ⟨.Integrated a, some .Rejected⟩).rejected = s.rejected ++ [a] ∧
      ∀ vs : Option ValidationStatus,
        (fold s ⟨.Pending a, vs⟩).pending = s.pending ++ [a] := by
  refine ⟨foldl_status_frozen items s st h, fun a =>
    ⟨(fold_valid_item s a).1, (fold_rejected_item s a).1, fun vs => ?_⟩⟩
  rw [fold_pending_item s a vs]

/-- C3 witness: an `Invalid` decision survives later valid and rejected
records, which are still appended. -/
theorem freeze_invariant_witness :
    (([⟨.Integrated ⟨2, 6⟩, some .Valid⟩, ⟨.Integrated ⟨3, 8⟩, some .Rejected⟩] :
        List Judged).foldl fold
      { valid := [], rejected := [], pending := [],
        status := some (.Invalid { action_seq := 1, hash := 5 }) }).status =
      some (.Invalid { action_seq := 1, hash := 5 }) ∧
    (fold { valid := [], rejected := [], pending := [],
            status := some (.Invalid { action_seq := 1, hash := 5 }) }
        ⟨.Integrated ⟨3, 7⟩, some .Valid⟩).valid = [⟨3, 7⟩] := by
  have h := freeze_invariant
      { valid := [], rejected := [], pending := [],
        status := some (.Invalid { action_seq := 1, hash := 5 }) }
      (.Invalid { action_seq := 1, hash := 5 }) rfl
      [⟨.Integrated ⟨2, 6⟩, some .Valid⟩, ⟨.Integrated ⟨3, 8⟩, some .Rejected⟩]
  exact ⟨h.1, (h.2 ⟨3, 7⟩).1⟩

/-- C5: a (Rejected, Integrated) item decides `Invalid` with its own sequence
and hash when the status is still undecided; it is appended to the rejected
partition in every case, and therefore appears in the rendered
rejected-activity list when that list is requested and the filter admits the
record. -/
theorem fold_invalid_decision (s : State) (a : ActionHashed) (q : GetAgentActivityQuery)
    (hreq : q.options.include_rejected_activity = true) (hpred : q.filter.pred a = true) :
    (s.status = none →
      (fold s ⟨.Integrated a, some .Rejected⟩).status =
        some (.Invalid { action_seq := a.action_seq, hash := a.hash })) ∧
    (fold s ⟨.Integrated a, some .Rejected⟩).rejected = s.rejected ++ [a] ∧
    ∀ resp, render q (fold s ⟨.Integrated a, some .Rejected⟩) = some resp →
      ∃ l, resp.rejected_activity = ChainItems.Hashes l ∧ (a.action_seq, a.hash) ∈ l := by
  refine ⟨(fold_rejected_item s a).2.2.2, (fold_rejected_item s a).1, ?_⟩
  intro resp hresp
  simp only [render] at hresp
  rcases hcs : compute_chain_status (fold s ⟨.Integrated a, some .Rejected⟩) with _ | cs
  · rw [hcs] at hresp
    simp at hresp
  · rw [hcs] at hresp
    simp only [Option.some.injEq] at hresp
    subst hresp
    refine ⟨(q.filter.filter_actions (fold s ⟨.Integrated a, some .Rejected⟩).rejected).map
        (fun h => (h.action_seq, h.hash)), ?_, ?_⟩
    · simp [hreq]
    · refine List.mem_map.mpr ⟨a, ?_, rfl⟩
      unfold ChainQueryFilter.filter_actions
      rw [(fold_rejected_item s a).1, List.filter_append]
      refine List.mem_append_right _ ?_
      simp [hpred]

/-- C5 witness: a rejected record at sequence 2 decides `Invalid` and shows up
in the requested rejected-activity list. -/
theorem fold_invalid_decision_witness :
    (fold { valid := [⟨1, 5⟩], rejected := [], pending := [], status := none }
        ⟨.Integrated ⟨2, 9⟩, some .Rejected⟩).status =
      some (.Invalid { action_seq := 2, hash := 9 }) ∧
    (fold { valid := [⟨1, 5⟩], rejected := [], pending := [], status := none }
        ⟨.Integrated ⟨2, 9⟩, some .Rejected⟩).rejected = [⟨2, 9⟩] ∧
    ((2, 9) : Nat × ActionHash) ∈ [((2, 9) : Nat × ActionHash)] := by
  have h := fold_invalid_decision
      { valid := [⟨1, 5⟩], rejected := [], pending := [], status := none } ⟨2, 9⟩
      { agent := 7, filter := ⟨fun _ => true⟩,
        options := { include_valid_activity := true, include_rejected_activity := true } }
      rfl rfl
  exact ⟨h.1 rfl, h.2.1, by simp⟩

/-- C9: for every state reachable by folding from the all-empty initial state,
an undecided status implies an empty rejected partition, and consequently the
render-time status computation cannot hit the panicking branch (the `expect`
on `state.valid.last()`). -/
theorem reachable_state_safe (items : List Judged) :
    ((items.foldl fold init_fold).status = none →
      (items.foldl fold init_fold).rejected = []) ∧
    (compute_chain_status (items.foldl fold init_fold)).isSome = true := by
  have hinv : StateInv (items.foldl fold init_fold) :=
    foldl_preserves_inv items init_fold (fun _ => rfl)
  refine ⟨hinv, ?_⟩
  rcases hst : (items.foldl fold init_fold).status with _ | st
  · have hrej := hinv hst
    by_cases hval : (items.foldl fold init_fold).valid = []
    · simp [compute_chain_status, hst, hval, hrej]
    · rcases hlast : (items.foldl fold init_fold).valid.getLast? with _ | v
      · exact absurd (List.getLast?_eq_none_iff.mp hlast) hval
      · simp [compute_chain_status, hst, hval, hrej, hlast]
  · simp [compute_chain_status, hst]

/-- For any item, the valid partition is either untouched or extended with
exactly the incoming valid integrated action. -/
theorem fold_valid_any (s : State) (i : Judged) :
    (fold s i).valid = s.valid ∨
      ∃ a, i = ⟨.Integrated a, some .Valid⟩ ∧ (fold s i).valid = s.valid ++ [a] ∧
        a.action_seq = i.item_seq := by
  obtain ⟨data, vs⟩ := i
  cases data with
  | Integrated a =>
      rcases vs with _ | v
      · left
        rw [fold_none_integrated]
      · cases v with
        | Valid => exact Or.inr ⟨a, rfl, (fold_valid_item s a).1, rfl⟩
        | Rejected => exact Or.inl (fold_rejected_item s a).2.1
  | Pending a =>
      left
      rw [fold_pending_item]

/-- Folding an ascending item stream keeps the valid partition sorted by
sequence number. -/
theorem foldl_valid_sorted (items : List Judged) :
    ∀ s : State,
      items.Pairwise (fun x y => x.item_seq ≤ y.item_seq) →
      s.valid.Pairwise (fun x y => x.action_seq ≤ y.action_seq) →
      (∀ v ∈ s.valid, ∀ i ∈ items, v.action_seq ≤ i.item_seq) →
      (items.foldl fold s).valid.Pairwise (fun x y => x.action_seq ≤ y.action_seq) := by
  induction items with
  | nil => intro s _ hs _; simpa
  | cons i rest ih =>
      intro s hasc hs hfut
      have hasc' := (List.pairwise_cons.mp hasc).2
      have hhead := (List.pairwise_cons.mp hasc).1
      rcases fold_valid_any s i with hsame | ⟨a, hi, happ, hseq⟩
      · refine ih (fold s i) hasc' ?_ ?_
        · rw [hsame]; exact hs
        · rw [hsame]
          intro v hv j hj
          exact hfut v hv j (List.mem_cons_of_mem i hj)
      · refine ih (fold s i) hasc' ?_ ?_
        · rw [happ, List.pairwise_append]
          refine ⟨hs, List.pairwise_singleton _ _, ?_⟩
          intro x hx y hy
          rw [List.mem_singleton.mp hy]
          have := hfut x hx i (List.mem_cons_self i rest)
          omega
        · rw [happ]
          intro v hv j hj
          rcases List.mem_append.mp hv with h | h
          · exact hfut v h j (List.mem_cons_of_mem i hj)
          · rw [List.mem_singleton.mp h, hseq]
            exact hhead j hj

/-- C6: under the ascending-delivery precondition, any two entries of the
rendered valid-activity list are ordered by sequence number. -/
theorem valid_activity_ordered (q : GetAgentActivityQuery) (items : List Judged)
    (hasc : items.Pairwise (fun x y => x.item_seq ≤ y.item_seq))
    (resp : AgentActivityResponse) (l : List (Nat × ActionHash))
    (hr : render q (items.foldl fold init_fold) = some resp)
    (hl : resp.valid_activity = ChainItems.Hashes l) :
    l.Pairwise (fun x y => x.1 ≤ y.1) := by
  have hsorted : (items.foldl fold init_fold).valid.Pairwise
      (fun x y => x.action_seq ≤ y.action_seq) :=
    foldl_valid_sorted items init_fold hasc (by simp [init_fold]) (by simp [init_fold])
  simp only [render] at hr
  rcases hcs : compute_chain_status (items.foldl fold init_fold) with _ | cs
  · rw [hcs] at hr
    simp at hr
  · rw [hcs] at hr
    simp only [Option.some.injEq] at hr
    subst hr
    by_cases hreq : q.options.include_valid_activity
    · simp only [hreq, if_true] at hl
      injection hl with hl'
      rw [← hl']
      refine List.pairwise_map.mpr ?_
      exact List.Pairwise.sublist (List.filter_sublist _) hsorted
    · simp [hreq] at hl

/-- C6 witness: an ascending two-record valid chain renders an ordered
valid-activity list. -/
theorem valid_activity_ordered_witness :
    ([(1, 11), (2, 12)] : List (Nat × ActionHash)).Pairwise (fun x y => x.1 ≤ y.1) := by
  refine valid_activity_ordered
      { agent := 7, filter := ⟨fun _ => true⟩,
        options := { include_valid_activity := true, include_rejected_activity := true } }
      [⟨.Integrated ⟨1, 11⟩, some .Valid⟩, ⟨.Integrated ⟨2, 12⟩, some .Valid⟩]
      (by decide)
      { agent := 7, valid_activity := .Hashes [(1, 11), (2, 12)],
        rejected_activity := .Hashes [],
        status := .Valid { action_seq := 2, hash := 12 },
        highest_observed := some { action_seq := 2, hash := [12] } }
      [(1, 11), (2, 12)] rfl rfl

/-- Render produces the response record once the chain status computes. -/
theorem render_some (q : GetAgentActivityQuery) (s : State) (cs : ChainStatus)
    (hcs : compute_chain_status s = some cs) :
    render q s = some
      { agent := q.agent
        valid_activity := if q.options.include_valid_activity then
            ChainItems.Hashes ((q.filter.filter_actions s.valid).map
              fun h => (h.action_seq, h.hash))
          else ChainItems.NotRequested
        rejected_activity := if q.options.include_rejected_activity then
            ChainItems.Hashes ((q.filter.filter_actions s.rejected).map
              fun h => (h.action_seq, h.hash))
          else ChainItems.NotRequested
        status := cs
        highest_observed := compute_highest_observed s } := by
  simp only [render]
  rw [hcs]

/-- C4: render-time status resolution on reachable states: a status frozen by
the fold is returned unchanged; otherwise the status renders as `Empty` when
both the valid and rejected partitions are empty (in particular when only
pending records exist), and as `Valid` headed by the last entry of the valid
partition otherwise. -/
theorem render_status_resolution (q : GetAgentActivityQuery) (items : List Judged) :
    ∃ resp, render q (items.foldl fold init_fold) = some resp ∧
      (∀ st, (items.foldl fold init_fold).status = some st → resp.status = st) ∧
      ((items.foldl fold init_fold).status = none →
        (items.foldl fold init_fold).valid = [] →
        (items.foldl fold init_fold).rejected = [] → resp.status = .Empty) ∧
      ((items.foldl fold init_fold).status = none →
        ¬((items.foldl fold init_fold).valid = [] ∧
          (items.foldl fold init_fold).rejected = []) →
        ∃ last, (items.foldl fold init_fold).valid.getLast? = some last ∧
          resp.status = .Valid { action_seq := last.action_seq, hash := last.hash }) := by
  have hinv : StateInv (items.foldl fold init_fold) :=
    foldl_preserves_inv items init_fold (fun _ => rfl)
  rcases hst : (items.foldl fold init_fold).status with _ | st
  · have hrej := hinv hst
    by_cases hval : (items.foldl fold init_fold).valid = []
    · have hcs : compute_chain_status (items.foldl fold init_fold) = some .Empty := by
        simp [compute_chain_status, hst, hval, hrej]
      refine ⟨_, render_some q _ _ hcs, ?_, ?_, ?_⟩
      · intro st hst'
        cases hst'
      · intro _ _ _
        rfl
      · intro _ hne
        exact absurd ⟨hval, hrej⟩ hne
    · rcases hlast : (items.foldl fold init_fold).valid.getLast? with _ | v
      · exact absurd (List.getLast?_eq_none_iff.mp hlast) hval
      · have hcs : compute_chain_status (items.foldl fold init_fold)
            = some (.Valid { action_seq := v.action_seq, hash := v.hash }) := by
          simp [compute_chain_status, hst, hval, hrej, hlast]
        refine ⟨_, render_some q _ _ hcs, ?_, ?_, ?_⟩
        · intro st hst'
          cases hst'
        · intro _ hval' _
          exact absurd hval' hval
        · intro _ _
          exact ⟨v, rfl, rfl⟩
  · have hcs : compute_chain_status (items.foldl fold init_fold) = some st := by
      simp [compute_chain_status, hst]
    refine ⟨_, render_some q _ _ hcs, ?_, ?_, ?_⟩
    · intro st' hst'
      cases hst'
      rfl
    · intro hnone
      cases hnone
    · intro hnone
      cases hnone

/-- C4 witness: a one-record valid chain renders status `Valid` headed by that
record. -/
theorem render_status_resolution_witness :
    (render { agent := 7, filter := ⟨fun _ => true⟩,
              options := { include_valid_activity := true,
                           include_rejected_activity := true } }
        (([⟨.Integrated ⟨1, 5⟩, some .Valid⟩] : List Judged).foldl fold init_fold)).map
      AgentActivityResponse.status = some (.Valid { action_seq := 1, hash := 5 }) := by
  obtain ⟨resp, hr, hsome, hempty, hvalid⟩ :=
    render_status_resolution
      { agent := 7, filter := ⟨fun _ => true⟩,
        options := { include_valid_activity := true, include_rejected_activity := true } }
      [⟨.Integrated ⟨1, 5⟩, some .Valid⟩]
  obtain ⟨last, hlast, hstat⟩ := hvalid rfl (by decide)
  have h15 : (([⟨.Integrated ⟨1, 5⟩, some .Valid⟩] : List Judged).foldl fold
      init_fold).valid.getLast? = some ⟨1, 5⟩ := rfl
  rw [h15] at hlast
  injection hlast with hlast'
  rw [hr]
  simp only [Option.map_some']
  rw [hstat, ← hlast']

/-- A delivered row list containing a corrupt row projects to a decode
error. -/
theorem map_rows_corrupt (rows : List Row) :
    ∀ row ∈ rows, row.action_blob = .corrupt →
      map_rows rows = .error .DecodeError := by
  induction rows with
  | nil => intro row h; cases h
  | cons r rest ih =>
      intro row hmem hcor
      rcases List.mem_cons.mp hmem with h | h
      · subst h
        have hbad : as_map row = .error .DecodeError := by
          simp [as_map, from_blob, hcor, Except.bind]
        simp [map_rows, hbad]
      · rcases hmap : as_map r with e | item
        · cases e
          simp [map_rows, hmap]
        · simp [map_rows, hmap, ih row h hcor]

/-- C7: the row projector tags an item `Integrated` exactly when the row's
integration timestamp is present and `Pending` when it is absent, carrying the
row's nullable validation status; a row whose action payload cannot be
decoded yields an error instead of an item, and the whole query then aborts
with that error and no partial response. -/
theorem as_map_projection (row : Row) (q : GetAgentActivityQuery) (rows : List Row) :
    (∀ a, row.action_blob = .wellFormed a →
      as_map row = .ok
        { data := if row.when_integrated.isSome then
              Item.Integrated (ActionHashed.with_pre_hashed a.into_data row.hash)
            else
              Item.Pending (ActionHashed.with_pre_hashed a.into_data row.hash)
          validation_status := row.validation_status }) ∧
    (row.action_blob = .corrupt → as_map row = .error .DecodeError) ∧
    (row.action_blob = .corrupt → row ∈ rows →
      run_query q rows = .error .DecodeError) := by
  refine ⟨?_, ?_, ?_⟩
  · intro a hb
    simp [as_map, from_blob, hb, Except.bind]
  · intro hb
    simp [as_map, from_blob, hb, Except.bind]
  · intro hb hmem
    simp [run_query, map_rows_corrupt rows row hmem hb]

/-- C7 witness: a well-formed integrated row projects to an integrated item,
and one corrupt row aborts the whole two-row query. -/
theorem as_map_projection_witness :
    as_map { hash := 11, validation_status := some .Valid,
             action_blob := .wellFormed ⟨⟨1⟩⟩, when_integrated := some 0 } =
      .ok { data := .Integrated { action_seq := 1, hash := 11 },
            validation_status := some .Valid } ∧
    as_map { hash := 12, validation_status := some .Valid,
             action_blob := .corrupt, when_integrated := some 0 } =
      .error .DecodeError ∧
    run_query
        { agent := 7, filter := ⟨fun _ => true⟩,
          options := { include_valid_activity := true,
                       include_rejected_activity := true } }
        [ { hash := 11, validation_status := some .Valid,
            action_blob := .wellFormed ⟨⟨1⟩⟩, when_integrated := some 0 },
          { hash := 12, validation_status := some .Valid,
            action_blob := .corrupt, when_integrated := some 0 } ] =
      .error .DecodeError := by
  have hgood := (as_map_projection
      { hash := 11, validation_status := some .Valid,
        action_blob := .wellFormed ⟨⟨1⟩⟩, when_integrated := some 0 }
      { agent := 7, filter := ⟨fun _ => true⟩,
        options := { include_valid_activity := true,
                     include_rejected_activity := true } } []).1 ⟨⟨1⟩⟩ rfl
  have hbad := as_map_projection
      { hash := 12, validation_status := some .Valid,
        action_blob := .corrupt, when_integrated := some 0 }
      { agent := 7, filter := ⟨fun _ => true⟩,
        options := { include_valid_activity := true,
                     include_rejected_activity := true } }
      [ { hash := 11, validation_status := some .Valid,
          action_blob := .wellFormed ⟨⟨1⟩⟩, when_integrated := some 0 },
        { hash := 12, validation_status := some .Valid,
          action_blob := .corrupt, when_integrated := some 0 } ]
  exact ⟨hgood, hbad.2.1 rfl, hbad.2.2 rfl (by decide)⟩

/-- C8: the rendered activity lists obey the request gates: a list that was
not requested is the explicit `NotRequested` marker even when the
corresponding partition is non-empty, a requested list is the filtered
projection of its partition, and an empty requested list is distinct from
`NotRequested`. -/
theorem render_gating (q : GetAgentActivityQuery) (s : State) (resp : AgentActivityResponse)
    (hr : render q s = some resp) :
    (q.options.include_valid_activity = false → resp.valid_activity = .NotRequested) ∧
    (q.options.include_valid_activity = true →
      resp.valid_activity = .Hashes ((q.filter.filter_actions s.valid).map
        fun h => (h.action_seq, h.hash))) ∧
    (q.options.include_rejected_activity = false → resp.rejected_activity = .NotRequested) ∧
    (q.options.include_rejected_activity = true →
      resp.rejected_activity = .Hashes ((q.filter.filter_actions s.rejected).map
        fun h => (h.action_seq, h.hash))) ∧
    ChainItems.Hashes [] ≠ ChainItems.NotRequested := by
  simp only [render] at hr
  rcases hcs : compute_chain_status s with _ | cs
  · rw [hcs] at hr
    simp at hr
  · rw [hcs] at hr
    simp only [Option.some.injEq] at hr
    subst hr
    refine ⟨?_, ?_, ?_, ?_, by decide⟩
    · intro hf
      simp [hf]
    · intro ht
      simp [ht]
    · intro hf
      simp [hf]
    · intro ht
      simp [ht]

/-- C8 witness: with valid-activity not requested but rejected-activity
requested, the response carries the `NotRequested` marker alongside a
`Hashes` list, and the two are distinct. -/
theorem render_gating_witness :
    render { agent := 7, filter := ⟨fun _ => true⟩,
             options := { include_valid_activity := false,
                          include_rejected_activity := true } }
        { valid := [⟨1, 5⟩], rejected := [⟨2, 9⟩], pending := [], status := none } =
      some { agent := 7, valid_activity := .NotRequested,
             rejected_activity := .Hashes [(2, 9)],
             status := .Valid { action_seq := 1, hash := 5 },
             highest_observed := some { action_seq := 2, hash := [9] } } ∧
    ChainItems.Hashes [] ≠ ChainItems.NotRequested := by
  have h := render_gating
      { agent := 7, filter := ⟨fun _ => true⟩,
        options := { include_valid_activity := false,
                     include_rejected_activity := true } }
      { valid := [⟨1, 5⟩], rejected := [⟨2, 9⟩], pending := [], status := none }
      { agent := 7, valid_activity := .NotRequested,
        rejected_activity := .Hashes [(2, 9)],
        status := .Valid { action_seq := 1, hash := 5 },
        highest_observed := some { action_seq := 2, hash := [9] } }
      rfl
  exact ⟨rfl, h.2.2.2.2⟩

/-- C10: the composition of projection, fold and render is a deterministic
function of the query specification (agent, filter predicate, options) and
the delivered row sequence: two runs on equal inputs produce equal
responses. -/
theorem run_query_deterministic (q q' : GetAgentActivityQuery) (rows rows' : List Row)
    (hagent : q.agent = q'.agent) (hfilter : q.filter.pred = q'.filter.pred)
    (hopts : q.options = q'.options) (hrows : rows = rows') :
    run_query q rows = run_query q' rows' := by
  obtain ⟨a, f, o⟩ := q
  obtain ⟨a', f', o'⟩ := q'
  obtain ⟨p⟩ := f
  obtain ⟨p'⟩ := f'
  dsimp only at hagent hfilter hopts
  subst hagent
  subst hfilter
  subst hopts
  subst hrows
  rfl

/-- C10 witness: running the same concrete query twice on the same rows gives
the same response. -/
theorem run_query_deterministic_witness :
    run_query
        { agent := 7, filter := ⟨fun _ => true⟩,
          options := { include_valid_activity := true,
                       include_rejected_activity := true } }
        [ { hash := 11, validation_status := some .Valid,
            action_blob := .wellFormed ⟨⟨1⟩⟩, when_integrated := some 0 } ] =
      run_query
        { agent := 7, filter := ⟨fun _ => true⟩,
          options := { include_valid_activity := true,
                       include_rejected_activity := true } }
        [ { hash := 11, validation_status := some .Valid,
            action_blob := .wellFormed ⟨⟨1⟩⟩, when_integrated := some 0 } ] :=
  run_query_deterministic _ _ _ _ rfl rfl rfl rfl

/-- C9 witness: a one-record valid chain leaves the rejected partition empty
and renders a status without panicking. -/
theorem reachable_state_safe_witness :
    (([⟨.Integrated ⟨1, 5⟩, some .Valid⟩] : List Judged).foldl fold init_fold).rejected = [] ∧
    (compute_chain_status (([⟨.Integrated ⟨1, 5⟩, some .Valid⟩] : List Judged).foldl fold
        init_fold)).isSome = true := by
  have h := reachable_state_safe [⟨.Integrated ⟨1, 5⟩, some .Valid⟩]
  exact ⟨h.1 rfl, h.2⟩

end AgentActivity
